import Mathlib

/-!
Shallow embedding of `src/nvidia_vbios_vfio_patcher.py`.

The ROM is a list of bytes (naturals below 256).  `binascii.hexlify`
turns it into a list of lowercase hex-digit characters (two per byte);
all pattern searching in the program happens on that hex view.  Regex
search (`re.search`) is modelled as leftmost-position search of a
fixed-shape pattern predicate, which is exact for the patterns of this
program: every regex in the source is a concatenation of byte literals
and counted hex-digit character classes with no alternation, so it
matches at a position iff each segment matches at its fixed offset.
`bytes.count(sub, start, end)` is modelled with Python's
non-overlapping left-to-right semantics.
-/

set_option maxRecDepth 40000

/-- The lowercase hex digit for a value below 16, as produced by
`binascii.hexlify`. -/
def hexDigitChar (n : Nat) : Char :=
  if n < 10 then Char.ofNat ('0'.toNat + n) else Char.ofNat ('a'.toNat + (n - 10))

/-- `binascii.hexlify`: each byte becomes two lowercase hex digits. -/
def hexlify (rom : List Nat) : List Char :=
  rom.flatMap fun b => [hexDigitChar (b / 16), hexDigitChar (b % 16)]

/-- Value of one hex-digit character as accepted by `binascii.unhexlify`
(Python accepts both lowercase and uppercase digits); `none` for any
other character. -/
def hexVal (c : Char) : Option Nat :=
  if '0' ≤ c ∧ c ≤ '9' then some (c.toNat - '0'.toNat)
  else if 'a' ≤ c ∧ c ≤ 'f' then some (c.toNat - 'a'.toNat + 10)
  else if 'A' ≤ c ∧ c ≤ 'F' then some (c.toNat - 'A'.toNat + 10)
  else none

/-- `binascii.unhexlify`: parse consecutive pairs of hex digits back
into bytes; fails (`none`, modelling `binascii.Error`) on odd length or
on a character that is not a hex digit. -/
def unhexlify : List Char → Option (List Nat)
  | [] => some []
  | [_] => none
  | c1 :: c2 :: rest =>
    match hexVal c1, hexVal c2, unhexlify rest with
    | some hi, some lo, some bs => some ((16 * hi + lo) :: bs)
    | _, _, _ => none

/-- The regex character class `[a-f0-9]` used by every pattern in the
source. -/
def hexClass (c : Char) : Bool :=
  (decide ('a' ≤ c) && decide (c ≤ 'f')) || (decide ('0' ≤ c) && decide (c ≤ '9'))

/-- A literal run of characters matches in `s` starting at position `p`. -/
def litAt : List Char → List Char → Nat → Bool
  | [], _, _ => true
  | c :: cs, s, p => (s.get? p == some c) && litAt cs s (p + 1)

/-- A run of `n` characters of the class `[a-f0-9]` matches in `s`
starting at position `p`. -/
def hexRunAt (s : List Char) (p n : Nat) : Bool :=
  decide (p + n ≤ s.length) && ((s.drop p).take n).all hexClass

/-- Match of the header regex
`55aa(([a-f0-9]){2})(eb)(([a-f0-9]){20})(564944454f)` at position `i`. -/
def headerPatternAt (s : List Char) (i : Nat) : Bool :=
  litAt "55aa".data s i && hexRunAt s (i + 4) 2 && litAt "eb".data s (i + 6) &&
    hexRunAt s (i + 8) 20 && litAt "564944454f".data s (i + 28)

/-- Match of the footer regex
`564e(([a-f0-9]){g})(4e504453)(([a-f0-9]){56})(4e504445)` with first-gap
length `g` at position `i`. -/
def footerPatternAt (g : Nat) (s : List Char) (i : Nat) : Bool :=
  litAt "564e".data s i && hexRunAt s (i + 4) g &&
    litAt "4e504453".data s (i + 4 + g) && hexRunAt s (i + 12 + g) 56 &&
    litAt "4e504445".data s (i + 68 + g)

/-- First position in `[start, start + n)` where `p` holds. -/
def findFirstFrom (p : Nat → Bool) : Nat → Nat → Option Nat
  | _, 0 => none
  | start, n + 1 => if p start then some start else findFirstFrom p (start + 1) n

/-- `re.search`: the leftmost position of `s` at which the pattern
matches (patterns of this program never match at positions past
`s.length`, so scanning `[0, s.length]` is exhaustive). -/
def reSearch (s : List Char) (pat : Nat → Bool) : Option Nat :=
  findFirstFrom pat 0 (s.length + 1)

/-- The header search `re.search(HEADER_REGEX, self.content)`. -/
def detect_header (s : List Char) : Option Nat :=
  reSearch s (headerPatternAt s)

/-- The `FOOTER_DETECTORS` table: first-gap hex-digit count and series
name, in source order. -/
def FOOTER_DETECTORS : List (Nat × String) :=
  [(636, "RTX 30XX"),
   (572, "RTX 2060"),
   (476, "GTX 16XX / RTX 20XX"),
   (444, "Quadro PXXX"),
   (348, "GTX 10XX"),
   (188, "GTX 980"),
   (124, "GTX 400 - 900 Series")]

/-- The footer loop of `detect_offsets`: try each detector in table
order, returning the leftmost match position of the first detector that
matches anywhere, together with its series name. -/
def detectFooterAux (s : List Char) : List (Nat × String) → Option (Nat × String)
  | [] => none
  | (g, series) :: rest =>
    match reSearch s (footerPatternAt g s) with
    | some p => some (p, series)
    | none => detectFooterAux s rest

/-- Footer detection over the full catalog. -/
def detectFooter (s : List Char) : Option (Nat × String) :=
  detectFooterAux s FOOTER_DETECTORS

/-- The two optional offsets recorded by `VBIOSROM` (in hex-view
coordinates). -/
structure Offsets where
  header : Option Nat
  footer : Option Nat
deriving DecidableEq, Repr

/-- The `CheckException` states raised by the program.  Each constructor
carries exactly the data interpolated into the corresponding Python
message: `npdsCountWrong` and `npdeCountWrong` carry the observed count
(the messages embed `found {count}`); `npdeAfterNpdsWrong` carries
nothing, because the message `Expected two NPDE markers after the NPDS
marker` contains no count. -/
inductive CheckError where
  | headerNotFound
  | footerNotFound
  | offsetsNotSet
  | npdsCountWrong (found : Nat)
  | npdeCountWrong (found : Nat)
  | npdsPosNotFound
  | npdeAfterNpdsWrong
  | headerOffsetMissing
  | footerOffsetMissing
  | unhexlifyFailed
deriving DecidableEq, Repr

deriving instance DecidableEq for Except

/-- `VBIOSROM.detect_offsets`: find the header (leftmost match of the
header regex), then, unless `disable_footer`, the footer via the
detector table; raise on failure.  (The `len(groups()) != 6` guards in
the source are vacuous: each regex has exactly six groups whenever it
matches.) -/
def detect_offsets (s : List Char) (disable_footer : Bool) : Except CheckError Offsets :=
  match detect_header s with
  | none => .error .headerNotFound
  | some h =>
    if disable_footer then .ok ⟨some h, none⟩
    else
      match detectFooter s with
      | some (p, _) => .ok ⟨some h, some p⟩
      | none => .error .footerNotFound

/-- The `NPDS` marker `4e504453` in hex-view characters. -/
def NPDS : List Char := "4e504453".data

/-- The `NPDE` marker `4e504445` in hex-view characters. -/
def NPDE : List Char := "4e504445".data

/-- An occurrence of `sub` at position `p` lying entirely inside the
slice `s[.. stop]` (as required by Python `bytes.count`/`bytes.find`
with an `end` argument). -/
def fitsAt (s sub : List Char) (stop p : Nat) : Bool :=
  decide (p + sub.length ≤ stop) && litAt sub s p

/-- `bytes.find(sub, start, stop)`: position of the first occurrence of
`sub` inside `s[start:stop]`, or `none` (Python `-1`). -/
def findSub (s sub : List Char) (start stop : Nat) : Option Nat :=
  findFirstFrom (fun q => decide (start ≤ q) && fitsAt s sub stop q) start
    (s.length + 1 - start)

/-- Fuelled worker for Python `bytes.count`: non-overlapping
left-to-right counting.  `s.length + 1` fuel always suffices because
each found occurrence advances the scan position by `sub.length ≥ 1`. -/
def pyCountAux (s sub : List Char) (stop : Nat) : Nat → Nat → Nat
  | _, 0 => 0
  | start, fuel + 1 =>
    match findSub s sub start stop with
    | none => 0
    | some q => 1 + pyCountAux s sub stop (q + sub.length) fuel

/-- `bytes.count(sub, start, stop)`. -/
def pyCount (s sub : List Char) (start stop : Nat) : Nat :=
  pyCountAux s sub stop start (s.length + 1)

/-- The body of the `try` block of `run_sanity_tests`: the three
marker-count checks, raised in source order. -/
def sanity_inner (s : List Char) (header footer : Nat) : Except CheckError Unit :=
  if pyCount s NPDS header footer ≠ 1 then
    .error (.npdsCountWrong (pyCount s NPDS header footer))
  else if pyCount s NPDE header footer ≠ 3 then
    .error (.npdeCountWrong (pyCount s NPDE header footer))
  else
    match findSub s NPDS header footer with
    | none => .error .npdsPosNotFound
    | some npds_pos =>
      if pyCount s NPDE npds_pos footer ≠ 2 then .error .npdeAfterNpdsWrong
      else .ok ()

/-- `VBIOSROM.run_sanity_tests`.  The unset-offsets check sits outside
the `try` block in the source, so `ignore_check` does not suppress it;
`ignore_check` swallows only the marker-count violations raised inside
the `try`. -/
def run_sanity_tests (s : List Char) (offsets : Offsets) (ignore_check : Bool) :
    Except CheckError Unit :=
  match offsets.header, offsets.footer with
  | some header, some footer =>
    match sanity_inner s header footer with
    | .error e => if ignore_check then .ok () else .error e
    | .ok _ => .ok ()
  | _, _ => .error .offsetsNotSet

/-- `VBIOSROM.get_spliced_rom`: slice the hex view from the header to
the footer (or to the end when footer stripping is disabled) and decode
it back to bytes.  `s.take e |>.drop b` is Python `s[b:e]` for
non-negative clamped indices. -/
def get_spliced_rom (s : List Char) (offsets : Offsets) (disable_footer : Bool) :
    Except CheckError (List Nat) :=
  match offsets.header with
  | none => .error .headerOffsetMissing
  | some start =>
    if disable_footer then
      match unhexlify (s.drop start) with
      | some bs => .ok bs
      | none => .error .unhexlifyFailed
    else
      match offsets.footer with
      | none => .error .footerOffsetMissing
      | some stop =>
        match unhexlify ((s.take stop).drop start) with
        | some bs => .ok bs
        | none => .error .unhexlifyFailed

/-- The core pipeline of `main`: load (hexlify), detect offsets, run the
sanity tests unless footer stripping is disabled, then splice. -/
def runPipeline (rom : List Nat) (ignore_sanity disable_footer_strip : Bool) :
    Except CheckError (List Nat) :=
  let content := hexlify rom
  match detect_offsets content disable_footer_strip with
  | .error e => .error e
  | .ok offs =>
    if disable_footer_strip then get_spliced_rom content offs true
    else
      match run_sanity_tests content offs ignore_sanity with
      | .error e => .error e
      | .ok _ => get_spliced_rom content offs false

/-- Declarative occurrence count: the number of positions `p` with
`start ≤ p` at which `sub` occurs inside `s[.. stop]`.  This is the
counting notion the specification speaks about; it agrees with the
non-overlapping `pyCount` for the self-overlap-free markers of this
program (proved below). -/
def occCount (s sub : List Char) (start stop : Nat) : Nat :=
  ((Finset.range (s.length + 1)).filter fun p =>
    start ≤ p ∧ fitsAt s sub stop p = true).card

/-- Declarative count of occurrences strictly after position `pos`. -/
def occCountAfter (s sub : List Char) (pos stop : Nat) : Nat :=
  ((Finset.range (s.length + 1)).filter fun q =>
    pos < q ∧ fitsAt s sub stop q = true).card

/-- The character set actually accepted by `binascii.unhexlify`:
`[0-9a-fA-F]` (uppercase digits included). -/
def pyHexDigit (c : Char) : Bool :=
  hexClass c || (decide ('A' ≤ c) && decide (c ≤ 'F'))

/-- Hex view of a 247-byte ROM for the GTX 10XX scenario: header anchor
at position 0, filler `NPDE NPDS NPDE NPDE`, then a footer matching the
348-digit-gap detector at position 70. -/
def c9hex : List Char :=
  "55aa00eb".data ++ List.replicate 20 '0' ++ "564944454f".data ++
    "4e504445".data ++ "4e504453".data ++ "4e504445".data ++ "4e504445".data ++
    "564e".data ++ List.replicate 348 '0' ++ "4e504453".data ++
    List.replicate 56 '0' ++ "4e504445".data

/-- Hex view of a 119-byte ROM whose footer pattern (124-digit-gap
detector, at position 0) lies before its header pattern (at position
200). -/
def c4hex : List Char :=
  "564e".data ++ List.replicate 124 '0' ++ "4e504453".data ++
    List.replicate 56 '0' ++ "4e504445".data ++
    "55aa00eb".data ++ List.replicate 20 '0' ++ "564944454f".data

/-- The ROM bytes whose hexlify image is `c9hex`. -/
def c9bytes : List Nat := (unhexlify c9hex).getD []

/-- The ROM bytes whose hexlify image is `c4hex`. -/
def c4bytes : List Nat := (unhexlify c4hex).getD []

/-- Hex view of a 20-byte ROM whose header pattern occurs (only) at the
odd hex-view position 1. -/
def c3hex : List Char := "055aa00eb00000000000000000000564944454f0".data

/-- A 38-character hex view that is exactly one header match at
position 0. -/
def hdr38 : List Char :=
  "55aa00eb".data ++ List.replicate 20 '0' ++ "564944454f".data

/-- Sanity-check range containing `NPDE NPDE NPDS NPDE`: one NPDE after
the NPDS. -/
def c5hexA : List Char := "4e5044454e5044454e5044534e504445".data

/-- Sanity-check range containing `NPDS NPDE NPDE NPDE`: three NPDE
after the NPDS. -/
def c5hexB : List Char := "4e5044534e5044454e5044454e504445".data

/-- Sanity-check range containing `NPDE NPDS NPDE NPDE`: the structure
the checks accept. -/
def c5hexC : List Char := "4e5044454e5044534e5044454e504445".data


/-! ### Characterization of the search primitives -/

theorem findFirstFrom_some_spec {p : Nat → Bool} :
    ∀ {n start i : Nat}, findFirstFrom p start n = some i →
      p i = true ∧ start ≤ i ∧ i < start + n ∧
        ∀ j, start ≤ j → j < i → p j = false := by
  intro n
  induction n with
  | zero => intro start i h; simp [findFirstFrom] at h
  | succ n ih =>
    intro start i h
    rw [findFirstFrom] at h
    by_cases hp : p start
    · rw [if_pos hp] at h
      cases h
      exact ⟨hp, Nat.le_refl _, by omega,
        fun j h1 h2 => (Nat.lt_irrefl _ (Nat.lt_of_le_of_lt h1 h2)).elim⟩
    · rw [if_neg hp] at h
      obtain ⟨h1, h2, h3, h4⟩ := ih h
      refine ⟨h1, by omega, by omega, fun j hj1 hj2 => ?_⟩
      rcases Nat.eq_or_lt_of_le hj1 with rfl | hlt
      · exact Bool.eq_false_iff.mpr hp
      · exact h4 j hlt hj2

theorem findFirstFrom_none_spec {p : Nat → Bool} :
    ∀ {n start : Nat}, findFirstFrom p start n = none →
      ∀ j, start ≤ j → j < start + n → p j = false := by
  intro n
  induction n with
  | zero => intro start _ j hj1 hj2; omega
  | succ n ih =>
    intro start h j hj1 hj2
    rw [findFirstFrom] at h
    by_cases hp : p start
    · rw [if_pos hp] at h; cases h
    · rw [if_neg hp] at h
      rcases Nat.eq_or_lt_of_le hj1 with rfl | hlt
      · exact Bool.eq_false_iff.mpr hp
      · exact ih h j hlt (by omega)

theorem findFirstFrom_none_of {p : Nat → Bool} (hp : ∀ j, p j = false) :
    ∀ n start, findFirstFrom p start n = none := by
  intro n
  induction n with
  | zero => intro start; rfl
  | succ n ih =>
    intro start
    rw [findFirstFrom, hp start]
    simpa using ih (start + 1)

/-! ### Properties of literal and pattern matching -/

theorem litAt_get? :
    ∀ (sub s : List Char) (q : Nat), litAt sub s q = true →
      ∀ j, j < sub.length → s.get? (q + j) = sub.get? j := by
  intro sub
  induction sub with
  | nil => intro s q _ j hj; simp at hj
  | cons c cs ih =>
    intro s q h j hj
    rw [litAt, Bool.and_eq_true, beq_iff_eq] at h
    obtain ⟨h1, h2⟩ := h
    cases j with
    | zero => simpa using h1
    | succ j =>
      have heq : q + (j + 1) = (q + 1) + j := by omega
      rw [heq]
      simpa using ih s (q + 1) h2 j (by simpa using hj)

theorem litAt_length_le :
    ∀ (sub s : List Char) (q : Nat), litAt sub s q = true → 0 < sub.length →
      q + sub.length ≤ s.length := by
  intro sub
  induction sub with
  | nil => intro s q _ h0; simp at h0
  | cons c cs ih =>
    intro s q h _
    rw [litAt, Bool.and_eq_true, beq_iff_eq] at h
    obtain ⟨h1, h2⟩ := h
    have hq : q < s.length := by
      by_contra hc
      rw [List.get?_eq_none.mpr (by omega)] at h1
      cases h1
    cases cs with
    | nil => simpa using hq
    | cons d ds =>
      have := ih s (q + 1) h2 (by simp)
      simp only [List.length_cons] at this ⊢
      omega

theorem headerPatternAt_length {s : List Char} {i : Nat}
    (h : headerPatternAt s i = true) : i + 38 ≤ s.length := by
  simp only [headerPatternAt, Bool.and_eq_true] at h
  have := litAt_length_le _ _ _ h.2 (by decide)
  simp only [List.length_cons, List.length_nil] at this
  omega

theorem footerPatternAt_length {g : Nat} {s : List Char} {i : Nat}
    (h : footerPatternAt g s i = true) : i + 76 + g ≤ s.length := by
  simp only [footerPatternAt, Bool.and_eq_true] at h
  have := litAt_length_le _ _ _ h.2 (by decide)
  simp only [List.length_cons, List.length_nil] at this
  omega

theorem detect_header_some_spec {s : List Char} {i : Nat}
    (h : detect_header s = some i) :
    headerPatternAt s i = true ∧ ∀ j, j < i → headerPatternAt s j = false := by
  obtain ⟨h1, _, _, h4⟩ := findFirstFrom_some_spec h
  exact ⟨h1, fun j hj => h4 j (Nat.zero_le _) hj⟩

theorem detect_header_none_of {s : List Char}
    (h : ∀ i, i < s.length + 1 → headerPatternAt s i = false) :
    detect_header s = none := by
  apply findFirstFrom_none_of
  intro j
  by_cases hj : j < s.length + 1
  · exact h j hj
  · cases hf : headerPatternAt s j
    · rfl
    · have := headerPatternAt_length hf
      omega

theorem reSearch_footer_none_spec {g : Nat} {s : List Char}
    (h : reSearch s (footerPatternAt g s) = none) :
    ∀ i, footerPatternAt g s i = false := by
  intro i
  cases hf : footerPatternAt g s i
  · rfl
  · exfalso
    have hlen := footerPatternAt_length hf
    have := findFirstFrom_none_spec h i (Nat.zero_le _) (by omega)
    rw [this] at hf
    cases hf

/-! ### Non-overlapping count agrees with occurrence count for
self-overlap-free markers -/

theorem litAt_no_overlap {sub : List Char}
    (hap : ∀ k, k < sub.length → 0 < k →
      ∃ j, j < sub.length ∧ j + k < sub.length ∧ sub.get? j ≠ sub.get? (j + k)) :
    ∀ {s : List Char} {a b : Nat}, litAt sub s a = true → litAt sub s b = true →
      a < b → a + sub.length ≤ b := by
  intro s a b ha hb hab
  by_contra hc
  have hk1 : b - a < sub.length := by omega
  have hk0 : 0 < b - a := by omega
  obtain ⟨j, hj1, hj2, hj3⟩ := hap (b - a) hk1 hk0
  have e1 : s.get? (b + j) = sub.get? j := litAt_get? sub s b hb j hj1
  have e2 : s.get? (a + (j + (b - a))) = sub.get? (j + (b - a)) :=
    litAt_get? sub s a ha _ hj2
  have heq : a + (j + (b - a)) = b + j := by omega
  rw [heq, e1] at e2
  exact hj3 e2

theorem NPDS_aperiodic :
    ∀ k, k < NPDS.length → 0 < k →
      ∃ j, j < NPDS.length ∧ j + k < NPDS.length ∧
        NPDS.get? j ≠ NPDS.get? (j + k) := by decide

theorem NPDE_aperiodic :
    ∀ k, k < NPDE.length → 0 < k →
      ∃ j, j < NPDE.length ∧ j + k < NPDE.length ∧
        NPDE.get? j ≠ NPDE.get? (j + k) := by decide

theorem findSub_some_spec {s sub : List Char} {start stop q : Nat}
    (h : findSub s sub start stop = some q) :
    start ≤ q ∧ fitsAt s sub stop q = true ∧
      ∀ j, start ≤ j → j < q → fitsAt s sub stop j = false := by
  obtain ⟨h1, h2, h3, h4⟩ := findFirstFrom_some_spec h
  rw [Bool.and_eq_true, decide_eq_true_eq] at h1
  refine ⟨h1.1, h1.2, fun j hj1 hj2 => ?_⟩
  have hj := h4 j hj1 hj2
  simpa [decide_eq_true hj1] using hj

theorem findSub_none_spec {s sub : List Char} {start stop : Nat}
    (hL : 0 < sub.length) (h : findSub s sub start stop = none) :
    ∀ j, start ≤ j → fitsAt s sub stop j = false := by
  intro j hj
  by_cases hjr : j < start + (s.length + 1 - start)
  · have := findFirstFrom_none_spec h j hj hjr
    simpa [decide_eq_true hj] using this
  · cases hf : fitsAt s sub stop j
    · rfl
    · exfalso
      rw [fitsAt, Bool.and_eq_true] at hf
      have := litAt_length_le sub s j hf.2 hL
      omega

theorem pyCountAux_eq_occCount {s sub : List Char} (hL : 0 < sub.length)
    (hov : ∀ {a b : Nat}, litAt sub s a = true → litAt sub s b = true →
      a < b → a + sub.length ≤ b) (stop : Nat) :
    ∀ (fuel start : Nat), s.length + 1 ≤ start + fuel →
      pyCountAux s sub stop start fuel = occCount s sub start stop := by
  intro fuel
  induction fuel with
  | zero =>
    intro start hfs
    rw [pyCountAux]
    symm
    rw [occCount, Finset.card_eq_zero, Finset.eq_empty_iff_forall_not_mem]
    intro x hx
    rw [Finset.mem_filter, Finset.mem_range] at hx
    omega
  | succ fuel ih =>
    intro start hfs
    rw [pyCountAux]
    cases hfind : findSub s sub start stop with
    | none =>
      symm
      rw [occCount, Finset.card_eq_zero, Finset.eq_empty_iff_forall_not_mem]
      intro x hx
      rw [Finset.mem_filter, Finset.mem_range] at hx
      obtain ⟨hx1, hx2, hx3⟩ := hx
      rw [findSub_none_spec hL hfind x hx2] at hx3
      cases hx3
    | some q =>
      obtain ⟨hq1, hq2, hq3⟩ := findSub_some_spec hfind
      have hqfits := hq2
      rw [fitsAt, Bool.and_eq_true] at hqfits
      have hqlit : litAt sub s q = true := hqfits.2
      have hqlen : q + sub.length ≤ s.length := litAt_length_le _ _ _ hqlit hL
      show 1 + pyCountAux s sub stop (q + sub.length) fuel = occCount s sub start stop
      rw [ih (q + sub.length) (by omega)]
      have hset : ((Finset.range (s.length + 1)).filter fun x =>
            start ≤ x ∧ fitsAt s sub stop x = true) =
          insert q ((Finset.range (s.length + 1)).filter fun x =>
            q + sub.length ≤ x ∧ fitsAt s sub stop x = true) := by
        ext x
        simp only [Finset.mem_insert, Finset.mem_filter, Finset.mem_range]
        constructor
        · rintro ⟨hx1, hx2, hx3⟩
          rcases Nat.lt_trichotomy x q with hlt | rfl | hgt
          · rw [hq3 x hx2 hlt] at hx3
            cases hx3
          · exact Or.inl rfl
          · refine Or.inr ⟨hx1, ?_, hx3⟩
            have hx3' := hx3
            rw [fitsAt, Bool.and_eq_true] at hx3'
            exact hov hqlit hx3'.2 hgt
        · rintro (rfl | ⟨hx1, hx2, hx3⟩)
          · exact ⟨by omega, hq1, hq2⟩
          · exact ⟨hx1, by omega, hx3⟩
      rw [occCount, occCount, hset, Finset.card_insert_of_not_mem]
      · omega
      · rw [Finset.mem_filter]
        rintro ⟨-, hc, -⟩
        omega

theorem pyCount_eq_occCount {s sub : List Char} (hL : 0 < sub.length)
    (hov : ∀ {a b : Nat}, litAt sub s a = true → litAt sub s b = true →
      a < b → a + sub.length ≤ b) (start stop : Nat) :
    pyCount s sub start stop = occCount s sub start stop :=
  pyCountAux_eq_occCount hL hov stop (s.length + 1) start (by omega)

/-! ### The footer detector loop -/

theorem detectFooterAux_some_spec {s : List Char} :
    ∀ (l : List (Nat × String)) (q : Nat) (nm : String),
      detectFooterAux s l = some (q, nm) →
      ∃ k, ∃ hk : k < l.length,
        (l.get ⟨k, hk⟩).2 = nm ∧
        footerPatternAt (l.get ⟨k, hk⟩).1 s q = true ∧
        (∀ j, j < q → footerPatternAt (l.get ⟨k, hk⟩).1 s j = false) ∧
        ∀ m, ∀ hm : m < l.length, m < k →
          ∀ i, footerPatternAt (l.get ⟨m, hm⟩).1 s i = false := by
  intro l
  induction l with
  | nil => intro q nm h; simp [detectFooterAux] at h
  | cons hd rest ih =>
    obtain ⟨g, se⟩ := hd
    intro q nm h
    rw [detectFooterAux] at h
    cases hsearch : reSearch s (footerPatternAt g s) with
    | some r =>
      rw [hsearch] at h
      injection h with h
      injection h with h1 h2
      subst h1; subst h2
      obtain ⟨hp1, -, -, hp4⟩ := findFirstFrom_some_spec hsearch
      refine ⟨0, by simp, rfl, hp1, fun j hj => hp4 j (Nat.zero_le _) hj,
        fun m hm hm0 => by omega⟩
    | none =>
      rw [hsearch] at h
      obtain ⟨k, hk, ha, hb, hc, hd⟩ := ih q nm h
      refine ⟨k + 1, by simpa using hk, by simpa using ha, by simpa using hb,
        by simpa using hc, ?_⟩
      intro m hm hmk i
      cases m with
      | zero =>
        simpa using reSearch_footer_none_spec hsearch i
      | succ m =>
        have hm' : m < rest.length := by simpa using hm
        simpa using hd m hm' (by omega) i

theorem detectFooterAux_none_spec {s : List Char} :
    ∀ (l : List (Nat × String)), detectFooterAux s l = none →
      ∀ gs ∈ l, ∀ i, footerPatternAt gs.1 s i = false := by
  intro l
  induction l with
  | nil => intro _ gs hgs; simp at hgs
  | cons hd rest ih =>
    obtain ⟨g, se⟩ := hd
    intro h gs hgs i
    rw [detectFooterAux] at h
    cases hsearch : reSearch s (footerPatternAt g s) with
    | some r => rw [hsearch] at h; cases h
    | none =>
      rw [hsearch] at h
      rcases List.mem_cons.mp hgs with rfl | hmem
      · exact reSearch_footer_none_spec hsearch i
      · exact ih h gs hmem i

/-! ### The hex codec -/

theorem list_pair_induction {α : Type} {P : List α → Prop} (h0 : P [])
    (h1 : ∀ a, P [a]) (h2 : ∀ a b l, P l → P (a :: b :: l)) : ∀ l, P l
  | [] => h0
  | [a] => h1 a
  | a :: b :: l => h2 a b l (list_pair_induction h0 h1 h2 l)

theorem unhexlify_length :
    ∀ (l : List Char), ∀ bs, unhexlify l = some bs → 2 * bs.length = l.length := by
  refine list_pair_induction ?_ ?_ ?_
  · intro bs h
    rw [unhexlify] at h
    injection h with h
    subst h
    rfl
  · intro a bs h
    rw [unhexlify] at h
    cases h
  · intro a b l ih bs h
    rw [unhexlify] at h
    cases ha : hexVal a with
    | none => rw [ha] at h; cases h
    | some hi =>
      cases hb : hexVal b with
      | none => rw [ha, hb] at h; cases h
      | some lo =>
        cases hl : unhexlify l with
        | none => rw [ha, hb, hl] at h; cases h
        | some tl =>
          rw [ha, hb, hl] at h
          injection h with h
          subst h
          have := ih tl hl
          simp only [List.length_cons]
          omega

theorem hexVal_hexDigitChar : ∀ n, n < 16 → hexVal (hexDigitChar n) = some n := by
  decide

/-- C2: decoding the hex encoding of any byte sequence returns the
sequence unchanged: `unhexlify (hexlify rom) = some rom` whenever every
entry of `rom` is a byte value (below 256). -/
theorem decode_encode_roundtrip (rom : List Nat) (h : ∀ x ∈ rom, x < 256) :
    unhexlify (hexlify rom) = some rom := by
  induction rom with
  | nil => rfl
  | cons b tl ih =>
    have hb : b < 256 := h b (by simp)
    have htl := ih fun x hx => h x (by simp [hx])
    have h1 : hexVal (hexDigitChar (b / 16)) = some (b / 16) :=
      hexVal_hexDigitChar _ (by omega)
    have h2 : hexVal (hexDigitChar (b % 16)) = some (b % 16) :=
      hexVal_hexDigitChar _ (by omega)
    have hshape : hexlify (b :: tl) =
        hexDigitChar (b / 16) :: hexDigitChar (b % 16) :: hexlify tl := by
      simp [hexlify]
    rw [hshape, unhexlify, h1, h2, htl]
    show some ((16 * (b / 16) + b % 16) :: tl) = some (b :: tl)
    have : 16 * (b / 16) + b % 16 = b := by omega
    rw [this]

/-- C2 witness at a concrete byte sequence. -/
theorem decode_encode_roundtrip_witness :
    (∀ x ∈ [(0 : Nat), 85, 255], x < 256) ∧
      unhexlify (hexlify [0, 85, 255]) = some [0, 85, 255] :=
  ⟨by decide, decode_encode_roundtrip [0, 85, 255] (by decide)⟩

theorem hexVal_none_iff (c : Char) : hexVal c = none ↔ pyHexDigit c = false := by
  rw [hexVal, pyHexDigit, hexClass]
  split_ifs with h1 h2 h3 <;>
    simp_all [Bool.or_eq_false_iff, Bool.and_eq_false_iff, decide_eq_false_iff_not]

/-- C7 (amended): `unhexlify` fails exactly when the input has odd
length or contains a character outside `[0-9a-fA-F]` (Python's
`unhexlify` also accepts uppercase hex digits). -/
theorem decode_failure_iff :
    ∀ (l : List Char),
      unhexlify l = none ↔ l.length % 2 = 1 ∨ ∃ c ∈ l, pyHexDigit c = false := by
  refine list_pair_induction ?_ ?_ ?_
  · rw [unhexlify]
    simp
  · intro a
    rw [unhexlify]
    simp
  · intro a b l ih
    have hpar : (a :: b :: l).length % 2 = l.length % 2 := by
      simp only [List.length_cons]
      omega
    rw [unhexlify, hpar]
    cases ha : hexVal a with
    | none =>
      have := (hexVal_none_iff a).mp ha
      simp [this]
    | some hi =>
      have ha' : pyHexDigit a = true := by
        cases hpa : pyHexDigit a
        · rw [(hexVal_none_iff a).mpr hpa] at ha; cases ha
        · rfl
      cases hb : hexVal b with
      | none =>
        have := (hexVal_none_iff b).mp hb
        simp [this]
      | some lo =>
        have hb' : pyHexDigit b = true := by
          cases hpb : pyHexDigit b
          · rw [(hexVal_none_iff b).mpr hpb] at hb; cases hb
          · rfl
        cases hl : unhexlify l with
        | none =>
          have := ih.mp hl
          simp only [List.mem_cons]
          constructor
          · intro _
            rcases this with hh | ⟨c, hc1, hc2⟩
            · exact Or.inl hh
            · exact Or.inr ⟨c, Or.inr (Or.inr hc1), hc2⟩
          · intro _; trivial
        | some tl =>
          have hnot := ih.not.mp (by simp [hl])
          push_neg at hnot
          simp only [List.mem_cons]
          constructor
          · intro hcontra; cases hcontra
          · rintro (hh | ⟨c, hc1, hc2⟩)
            · exact absurd hh hnot.1
            · rcases hc1 with rfl | rfl | hc1
              · rw [ha'] at hc2; cases hc2
              · rw [hb'] at hc2; cases hc2
              · exact absurd hc2 (by simpa using hnot.2 c hc1)

/-- C7 counterexample: `AB` consists of characters outside `[a-f0-9]`
(the set the claim names) yet `unhexlify` succeeds on it. -/
theorem decode_charset_counterexample :
    (∃ c ∈ "AB".data, hexClass c = false) ∧ unhexlify ("AB".data) = some [171] := by
  decide

/-! ### The sanity checks -/

theorem litAt_NPDS_not_NPDE {s : List Char} {q : Nat} (h : litAt NPDS s q = true) :
    litAt NPDE s q = false := by
  cases h2 : litAt NPDE s q
  · rfl
  · exfalso
    have e1 := litAt_get? NPDS s q h 6 (by decide)
    have e2 := litAt_get? NPDE s q h2 6 (by decide)
    have : NPDS.get? 6 = NPDE.get? 6 := e1.symm.trans e2
    exact absurd this (by decide)

theorem occCount_NPDE_eq_after {s : List Char} {q stop : Nat}
    (h : litAt NPDS s q = true) :
    occCount s NPDE q stop = occCountAfter s NPDE q stop := by
  rw [occCount, occCountAfter]
  congr 1
  ext x
  simp only [Finset.mem_filter, Finset.mem_range]
  constructor
  · rintro ⟨hx1, hx2, hx3⟩
    refine ⟨hx1, ?_, hx3⟩
    rcases Nat.eq_or_lt_of_le hx2 with rfl | hlt
    · exfalso
      rw [fitsAt, Bool.and_eq_true] at hx3
      obtain ⟨-, hx3⟩ := hx3
      rw [litAt_NPDS_not_NPDE h] at hx3
      cases hx3
    · exact hlt
  · rintro ⟨hx1, hx2, hx3⟩
    exact ⟨hx1, Nat.le_of_lt hx2, hx3⟩

theorem run_sanity_tests_false_eq (s : List Char) (a b : Nat) :
    run_sanity_tests s ⟨some a, some b⟩ false = sanity_inner s a b := by
  cases h : sanity_inner s a b with
  | error e => simp [run_sanity_tests, h]
  | ok u => cases u; simp [run_sanity_tests, h]

/-- C5 (amended): with both offsets set and violations fatal, the sanity
check passes exactly when the range `[header, footer)` of the hex view
contains exactly one NPDS occurrence, exactly three NPDE occurrences,
and exactly two NPDE occurrences strictly after the NPDS occurrence; a
failing rule raises the corresponding error, which carries the observed
count for rules 1 and 2 but not for rule 3. -/
theorem sanity_check_exactness (s : List Char) (a b : Nat) :
    (run_sanity_tests s ⟨some a, some b⟩ false = .ok () ↔
      occCount s NPDS a b = 1 ∧ occCount s NPDE a b = 3 ∧
        ∀ p, a ≤ p → fitsAt s NPDS b p = true → occCountAfter s NPDE p b = 2) ∧
    (occCount s NPDS a b ≠ 1 →
      run_sanity_tests s ⟨some a, some b⟩ false =
        .error (.npdsCountWrong (occCount s NPDS a b))) ∧
    (occCount s NPDS a b = 1 → occCount s NPDE a b ≠ 3 →
      run_sanity_tests s ⟨some a, some b⟩ false =
        .error (.npdeCountWrong (occCount s NPDE a b))) ∧
    (occCount s NPDS a b = 1 → occCount s NPDE a b = 3 →
      ∀ p, a ≤ p → fitsAt s NPDS b p = true → occCountAfter s NPDE p b ≠ 2 →
        run_sanity_tests s ⟨some a, some b⟩ false = .error .npdeAfterNpdsWrong) := by
  have hrw := run_sanity_tests_false_eq s a b
  have eNPDS : pyCount s NPDS a b = occCount s NPDS a b :=
    pyCount_eq_occCount (by decide) (litAt_no_overlap NPDS_aperiodic) a b
  have eNPDE : pyCount s NPDE a b = occCount s NPDE a b :=
    pyCount_eq_occCount (by decide) (litAt_no_overlap NPDE_aperiodic) a b
  by_cases h1 : occCount s NPDS a b = 1
  · rw [occCount] at h1
    obtain ⟨x, hx⟩ := Finset.card_eq_one.mp h1
    have hxmem := hx ▸ Finset.mem_singleton_self x
    rw [Finset.mem_filter, Finset.mem_range] at hxmem
    obtain ⟨hxr, hxa, hxfits⟩ := hxmem
    have hxlit : litAt NPDS s x = true := by
      have h' := hxfits
      rw [fitsAt, Bool.and_eq_true] at h'
      exact h'.2
    have huniq : ∀ p, a ≤ p → fitsAt s NPDS b p = true → p = x := by
      intro p hpa hpf
      have hplit : litAt NPDS s p = true := by
        have h' := hpf
        rw [fitsAt, Bool.and_eq_true] at h'
        exact h'.2
      have hplen := litAt_length_le _ _ _ hplit (by decide)
      have h8 : 0 < NPDS.length := by decide
      have hpmem : p ∈ (Finset.range (s.length + 1)).filter fun p =>
          a ≤ p ∧ fitsAt s NPDS b p = true :=
        Finset.mem_filter.mpr ⟨Finset.mem_range.mpr (by omega), hpa, hpf⟩
      rw [hx] at hpmem
      exact Finset.mem_singleton.mp hpmem
    have h1' : occCount s NPDS a b = 1 := by rw [occCount, hx]; rfl
    have hfind : findSub s NPDS a b = some x := by
      cases hf : findSub s NPDS a b with
      | none =>
        exfalso
        have := findSub_none_spec (by decide) hf x hxa
        rw [this] at hxfits
        cases hxfits
      | some q =>
        obtain ⟨hq1, hq2, -⟩ := findSub_some_spec hf
        rw [huniq q hq1 hq2]
    have eAfter : pyCount s NPDE x b = occCountAfter s NPDE x b :=
      (pyCount_eq_occCount (by decide) (litAt_no_overlap NPDE_aperiodic) x b).trans
        (occCount_NPDE_eq_after hxlit)
    by_cases h2 : occCount s NPDE a b = 3
    · by_cases h3 : occCountAfter s NPDE x b = 2
      · have hsi : sanity_inner s a b = .ok () := by
          rw [sanity_inner, eNPDS, if_neg (fun hne => hne h1'), eNPDE,
            if_neg (fun hne => hne h2), hfind]
          show (if pyCount s NPDE x b ≠ 2 then
              (Except.error CheckError.npdeAfterNpdsWrong : Except CheckError Unit)
            else Except.ok ()) = Except.ok ()
          rw [eAfter, if_neg (fun hne => hne h3)]
        refine ⟨?_, ?_, ?_, ?_⟩
        · rw [hrw, hsi]
          constructor
          · intro _
            exact ⟨h1', h2, fun p hp hf => by rw [huniq p hp hf]; exact h3⟩
          · intro _; rfl
        · intro hcon; exact absurd h1' hcon
        · intro _ hcon; exact absurd h2 hcon
        · intro _ _ p hp hf hne
          rw [huniq p hp hf] at hne
          exact absurd h3 hne
      · have hsi : sanity_inner s a b = .error .npdeAfterNpdsWrong := by
          rw [sanity_inner, eNPDS, if_neg (fun hne => hne h1'), eNPDE,
            if_neg (fun hne => hne h2), hfind]
          show (if pyCount s NPDE x b ≠ 2 then
              (Except.error CheckError.npdeAfterNpdsWrong : Except CheckError Unit)
            else Except.ok ()) = Except.error CheckError.npdeAfterNpdsWrong
          rw [eAfter, if_pos h3]
        refine ⟨?_, ?_, ?_, ?_⟩
        · rw [hrw, hsi]
          constructor
          · intro hcon; simp at hcon
          · rintro ⟨-, -, h3'⟩
            exact absurd (h3' x hxa hxfits) h3
        · intro hcon; exact absurd h1' hcon
        · intro _ hcon; exact absurd h2 hcon
        · intro _ _ p hp hf _
          rw [hrw, hsi]
    · have hsi : sanity_inner s a b =
          .error (.npdeCountWrong (occCount s NPDE a b)) := by
        rw [sanity_inner, eNPDS, if_neg (fun hne => hne h1'), eNPDE, if_pos h2]
      refine ⟨?_, ?_, ?_, ?_⟩
      · rw [hrw, hsi]
        constructor
        · intro hcon; simp at hcon
        · rintro ⟨-, h2', -⟩; exact absurd h2' h2
      · intro hcon; exact absurd h1' hcon
      · intro _ _; rw [hrw, hsi]
      · intro _ h2'; exact absurd h2' h2
  · have hsi : sanity_inner s a b =
        .error (.npdsCountWrong (occCount s NPDS a b)) := by
      rw [sanity_inner, eNPDS, if_pos h1]
    refine ⟨?_, ?_, ?_, ?_⟩
    · rw [hrw, hsi]
      constructor
      · intro hcon; simp at hcon
      · rintro ⟨h1', -, -⟩; exact absurd h1' h1
    · intro _; rw [hrw, hsi]
    · intro h1' _; exact absurd h1' h1
    · intro h1' _; exact absurd h1' h1

/-- C5 witness: a passing range, a rule-3 failure, and a rule-1 failure,
all obtained from the characterization theorem. -/
theorem sanity_check_exactness_witness :
    (occCount c5hexC NPDS 0 32 = 1 ∧ occCount c5hexC NPDE 0 32 = 3 ∧
      ∀ p, 0 ≤ p → fitsAt c5hexC NPDS 32 p = true →
        occCountAfter c5hexC NPDE p 32 = 2) ∧
    run_sanity_tests c5hexA ⟨some 0, some 32⟩ false = .error .npdeAfterNpdsWrong ∧
    run_sanity_tests [] ⟨some 0, some 0⟩ false =
      .error (.npdsCountWrong (occCount [] NPDS 0 0)) :=
  ⟨(sanity_check_exactness c5hexC 0 32).1.mp (by decide),
   (sanity_check_exactness c5hexA 0 32).2.2.2 (by decide) (by decide) 16
     (by decide) (by decide) (by decide),
   (sanity_check_exactness [] 0 0).2.1 (by decide)⟩

/-- C5 counterexample: two ranges that violate rule 3 with different
observed counts (one, resp. three, NPDE after the NPDS) raise the
identical error value, so the rule-3 violation does not identify the
observed count. -/
theorem sanity_rule3_count_not_reported :
    run_sanity_tests c5hexA ⟨some 0, some 32⟩ false = .error .npdeAfterNpdsWrong ∧
    run_sanity_tests c5hexB ⟨some 0, some 32⟩ false = .error .npdeAfterNpdsWrong ∧
    occCountAfter c5hexA NPDE 16 32 = 1 ∧
    occCountAfter c5hexB NPDE 0 32 = 3 := by
  refine ⟨by decide, by decide, by decide, by decide⟩

/-- C10: the unset-offsets precondition failure is raised regardless of
the ignore flag, while with both offsets set the ignore flag suppresses
every marker-count violation. -/
theorem sanity_offsets_precondition :
    (∀ (s : List Char) (offs : Offsets) (ig : Bool),
      offs.header = none ∨ offs.footer = none →
      run_sanity_tests s offs ig = .error .offsetsNotSet) ∧
    (∀ (s : List Char) (a b : Nat),
      run_sanity_tests s ⟨some a, some b⟩ true = .ok ()) := by
  constructor
  · rintro s ⟨oh, of⟩ ig h
    cases oh with
    | none => cases of <;> simp [run_sanity_tests]
    | some a =>
      cases of with
      | none => simp [run_sanity_tests]
      | some b => rcases h with h | h <;> simp at h
  · intro s a b
    cases hsi : sanity_inner s a b with
    | error e => simp [run_sanity_tests, hsi]
    | ok u => cases u; simp [run_sanity_tests, hsi]

/-- C10 witness. -/
theorem sanity_offsets_precondition_witness :
    run_sanity_tests [] ⟨none, some 0⟩ true = .error .offsetsNotSet ∧
    run_sanity_tests NPDS ⟨some 0, some 8⟩ true = .ok () :=
  ⟨sanity_offsets_precondition.1 [] ⟨none, some 0⟩ true (Or.inl rfl),
   sanity_offsets_precondition.2 NPDS 0 8⟩

/-- C6 (amended): when splicing succeeds the output length is half the
extracted hex-substring length; with the footer included this equals
`(footer - header) / 2` provided `header ≤ footer ≤ len(view)`, and with
the footer excluded it equals `(len(view) - header) / 2`. -/
theorem splice_length (s : List Char) (a b : Nat) (fo : Option Nat) (out : List Nat) :
    (a ≤ b → b ≤ s.length → get_spliced_rom s ⟨some a, some b⟩ false = .ok out →
      2 * out.length = b - a) ∧
    (get_spliced_rom s ⟨some a, fo⟩ true = .ok out →
      2 * out.length = s.length - a) := by
  constructor
  · intro hab hbs hsp
    cases hu : unhexlify ((s.take b).drop a) with
    | none => simp [get_spliced_rom, hu] at hsp
    | some bs =>
      simp only [get_spliced_rom, hu] at hsp
      have hout : bs = out := by simpa using hsp
      subst hout
      have hlen := unhexlify_length _ _ hu
      rw [List.length_drop, List.length_take] at hlen
      omega
  · intro hsp
    cases hu : unhexlify (s.drop a) with
    | none => simp [get_spliced_rom, hu] at hsp
    | some bs =>
      simp only [get_spliced_rom, hu] at hsp
      have hout : bs = out := by simpa using hsp
      subst hout
      have hlen := unhexlify_length _ _ hu
      rw [List.length_drop] at hlen
      omega

/-- C6 witness: splicing `4e504453` with offsets 0/4 and without a
footer bound. -/
theorem splice_length_witness :
    2 * ([(78 : Nat), 80].length) = 4 - 0 ∧
      2 * ([(78 : Nat), 80, 68, 83].length) = NPDS.length - 0 :=
  ⟨(splice_length NPDS 0 4 none [78, 80]).1 (by decide) (by decide) (by decide),
   (splice_length NPDS 0 4 none [78, 80, 68, 83]).2 (by decide)⟩

/-- C6 counterexample: a run (with sanity violations ignored) in which
detection yields footer offset 0 before header offset 200; splicing
succeeds with an empty output, whose length 0 differs from
`(footer - header) / 2 = -100`. -/
theorem splice_length_counterexample :
    detect_offsets c4hex false = .ok ⟨some 200, some 0⟩ ∧
    runPipeline c4bytes true false = .ok [] ∧
    get_spliced_rom c4hex ⟨some 200, some 0⟩ false = .ok [] ∧
    ((0 : Int) - 200) / 2 ≠ 0 := by
  refine ⟨by decide, by decide, by decide, by decide⟩

/-- C4 (amended): the footer offset is only ever set after the header
offset is (footer set implies header set), and when both are set they
are distinct; but the header offset need not be smaller. -/
theorem offsets_order_invariant (s : List Char) (df : Bool) (offs : Offsets)
    (hdet : detect_offsets s df = .ok offs) :
    (offs.footer.isSome = true → offs.header.isSome = true) ∧
    ∀ a b, offs.header = some a → offs.footer = some b → a ≠ b := by
  cases hh : detect_header s with
  | none => simp [detect_offsets, hh] at hdet
  | some h0 =>
    have hhpat := (detect_header_some_spec hh).1
    cases df
    · cases hf : detectFooter s with
      | none => simp [detect_offsets, hh, hf] at hdet
      | some pr =>
        obtain ⟨fp, fn⟩ := pr
        simp only [detect_offsets, hh, Bool.false_eq_true, if_false, hf] at hdet
        have hoffs : offs = ⟨some h0, some fp⟩ := by
          cases hdet
          rfl
        subst hoffs
        rw [detectFooter] at hf
        obtain ⟨k, hk, -, hfpat, -, -⟩ := detectFooterAux_some_spec _ fp fn hf
        constructor
        · intro _; rfl
        · intro a b ha hb
          have ha' : h0 = a := Option.some.inj ha
          have hb' : fp = b := Option.some.inj hb
          subst ha'
          subst hb'
          intro heq
          simp only [headerPatternAt, Bool.and_eq_true] at hhpat
          simp only [footerPatternAt, Bool.and_eq_true] at hfpat
          have e1 := litAt_get? _ _ _ hhpat.1.1.1.1 1 (by decide)
          have e2 := litAt_get? _ _ _ hfpat.1.1.1.1 1 (by decide)
          rw [heq] at e1
          have : ("55aa".data).get? 1 = ("564e".data).get? 1 := e1.symm.trans e2
          exact absurd this (by decide)
    · simp only [detect_offsets, hh, if_true] at hdet
      have hoffs : offs = ⟨some h0, none⟩ := by
        cases hdet
        rfl
      subst hoffs
      constructor
      · intro hcon; cases hcon
      · intro a b ha hb; cases hb

/-- C4 witness. -/
theorem offsets_order_invariant_witness :
    (Offsets.mk (some 200) (some 0)).header.isSome = true ∧ (200 : Nat) ≠ 0 := by
  have h := offsets_order_invariant c4hex false ⟨some 200, some 0⟩ (by decide)
  exact ⟨h.1 rfl, h.2 200 0 rfl rfl⟩

/-- C4 counterexample: a genuine hexlified ROM on which detection
succeeds with header offset 200 and footer offset 0, so the header
offset is not smaller than the footer offset. -/
theorem header_before_footer_counterexample :
    detect_offsets c4hex false = .ok ⟨some 200, some 0⟩ ∧
    hexlify c4bytes = c4hex ∧ ¬(200 < 0) := by
  refine ⟨by decide, by decide, by decide⟩

/-- C3 (amended): the reported offsets are even whenever every pattern
match in the hex view lies at an even index; the regex search itself
does not enforce byte alignment, so odd offsets are possible in
general. -/
theorem offsets_even_of_aligned (s : List Char) (df : Bool) (offs : Offsets)
    (hdet : detect_offsets s df = .ok offs)
    (hh : ∀ i, i < s.length + 1 → headerPatternAt s i = true → i % 2 = 0)
    (hf : ∀ gs ∈ FOOTER_DETECTORS, ∀ i, i < s.length + 1 →
      footerPatternAt gs.1 s i = true → i % 2 = 0) :
    (∀ a, offs.header = some a → a % 2 = 0) ∧
    (∀ b, offs.footer = some b → b % 2 = 0) := by
  cases hhd : detect_header s with
  | none => simp [detect_offsets, hhd] at hdet
  | some h0 =>
    have hpat := (detect_header_some_spec hhd).1
    have hbound := headerPatternAt_length hpat
    have h0even := hh h0 (by omega) hpat
    cases df
    · cases hft : detectFooter s with
      | none => simp [detect_offsets, hhd, hft] at hdet
      | some pr =>
        obtain ⟨fp, fn⟩ := pr
        simp only [detect_offsets, hhd, Bool.false_eq_true, if_false, hft] at hdet
        have hoffs : offs = ⟨some h0, some fp⟩ := by
          cases hdet
          rfl
        subst hoffs
        rw [detectFooter] at hft
        obtain ⟨k, hk, -, hfpat, -, -⟩ := detectFooterAux_some_spec _ fp fn hft
        have hfbound := footerPatternAt_length hfpat
        have hfeven := hf _ (List.get_mem FOOTER_DETECTORS k hk) fp
          (by omega) hfpat
        constructor
        · intro a ha
          have : h0 = a := Option.some.inj ha
          subst this
          exact h0even
        · intro b hb
          have : fp = b := Option.some.inj hb
          subst this
          exact hfeven
    · simp only [detect_offsets, hhd, if_true] at hdet
      have hoffs : offs = ⟨some h0, none⟩ := by
        cases hdet
        rfl
      subst hoffs
      constructor
      · intro a ha
        have : h0 = a := Option.some.inj ha
        subst this
        exact h0even
      · intro b hb
        cases hb

/-- C3 witness: a buffer whose only header match is at the even position
0 and which admits no footer match. -/
theorem offsets_even_of_aligned_witness : 0 % 2 = 0 :=
  (offsets_even_of_aligned hdr38 true ⟨some 0, none⟩ (by decide) (by decide)
    (by decide)).1 0 rfl

/-- C3 counterexample: a genuine hexlified ROM on which detection
succeeds reporting the odd header offset 1 (the header pattern matches
mid-byte in the hex view). -/
theorem offsets_even_counterexample :
    detect_offsets c3hex true = .ok ⟨some 1, none⟩ ∧
    hexlify ((unhexlify c3hex).getD []) = c3hex ∧ 1 % 2 ≠ 0 := by
  refine ⟨by decide, by decide, by decide⟩

/-- C8: header detection matches the fixed anchor template and returns
the leftmost match position; when the template matches nowhere in the
buffer, detection fails with the header-not-found error and the whole
pipeline stops there, never reaching the splice. -/
theorem header_detection_leftmost (rom : List Nat) (ig df : Bool) :
    (∀ i, detect_header (hexlify rom) = some i →
      headerPatternAt (hexlify rom) i = true ∧
        ∀ j, j < i → headerPatternAt (hexlify rom) j = false) ∧
    ((∀ i, i < (hexlify rom).length + 1 → headerPatternAt (hexlify rom) i = false) →
      detect_header (hexlify rom) = none ∧
        runPipeline rom ig df = .error .headerNotFound) := by
  constructor
  · intro i hi
    exact detect_header_some_spec hi
  · intro hnone
    have hd : detect_header (hexlify rom) = none := detect_header_none_of hnone
    refine ⟨hd, ?_⟩
    have hdo : detect_offsets (hexlify rom) df = .error .headerNotFound := by
      rw [detect_offsets, hd]
    simp [runPipeline, hdo]

/-- C8 witness: a one-byte ROM holds no header match, and its pipeline
run fails with the header error. -/
theorem header_detection_leftmost_witness :
    detect_header (hexlify [0]) = none ∧
      runPipeline [0] false false = .error .headerNotFound :=
  (header_detection_leftmost [0] false false).2 (by decide)

/-- C1: the footer catalog is ordered with strictly decreasing first-gap
lengths 636, 572, 476, 444, 348, 188, 124; footer detection returns the
leftmost match of the first catalog entry that matches anywhere in the
buffer (all earlier entries matching nowhere), and when no entry
matches anywhere, `detect_offsets` signals the footer-not-found
error. -/
theorem footer_catalog_priority (s : List Char) :
    (FOOTER_DETECTORS.map Prod.fst = [636, 572, 476, 444, 348, 188, 124] ∧
      List.Chain' (fun x y => y < x) (FOOTER_DETECTORS.map Prod.fst)) ∧
    (∀ q nm, detectFooter s = some (q, nm) →
      ∃ k, ∃ hk : k < FOOTER_DETECTORS.length,
        (FOOTER_DETECTORS.get ⟨k, hk⟩).2 = nm ∧
        footerPatternAt (FOOTER_DETECTORS.get ⟨k, hk⟩).1 s q = true ∧
        (∀ j, j < q → footerPatternAt (FOOTER_DETECTORS.get ⟨k, hk⟩).1 s j = false) ∧
        ∀ m, ∀ hm : m < FOOTER_DETECTORS.length, m < k →
          ∀ i, footerPatternAt (FOOTER_DETECTORS.get ⟨m, hm⟩).1 s i = false) ∧
    (detectFooter s = none →
      ∀ gs ∈ FOOTER_DETECTORS, ∀ i, footerPatternAt gs.1 s i = false) ∧
    (∀ h0, detect_header s = some h0 → detectFooter s = none →
      detect_offsets s false = .error .footerNotFound) := by
  refine ⟨⟨by decide, by norm_num [FOOTER_DETECTORS, List.chain'_cons]⟩, ?_, ?_, ?_⟩
  · intro q nm h
    exact detectFooterAux_some_spec _ q nm h
  · intro h gs hgs i
    exact detectFooterAux_none_spec _ h gs hgs i
  · intro h0 hh hf
    simp [detect_offsets, hh, hf]

/-- C1 witness: on the GTX 10XX scenario buffer the detector returns
position 70 with variant GTX 10XX, and the theorem exhibits the catalog
entry responsible. -/
theorem footer_catalog_priority_witness :
    ∃ k, ∃ hk : k < FOOTER_DETECTORS.length,
      (FOOTER_DETECTORS.get ⟨k, hk⟩).2 = "GTX 10XX" ∧
      footerPatternAt (FOOTER_DETECTORS.get ⟨k, hk⟩).1 c9hex 70 = true ∧
      (∀ j, j < 70 → footerPatternAt (FOOTER_DETECTORS.get ⟨k, hk⟩).1 c9hex j = false) ∧
      ∀ m, ∀ hm : m < FOOTER_DETECTORS.length, m < k →
        ∀ i, footerPatternAt (FOOTER_DETECTORS.get ⟨m, hm⟩).1 c9hex i = false :=
  (footer_catalog_priority c9hex).2.1 70 "GTX 10XX" (by decide)

set_option maxHeartbeats 4000000 in
/-- C9: on the scenario buffer (header anchor at 0, well-formed filler,
GTX 10XX footer at hex position 70) the detector reports header 0 and
variant GTX 10XX, the sanity check passes, and splicing yields exactly
the 35 ROM bytes lying between the two detected markers. -/
theorem gtx10xx_scenario :
    hexlify c9bytes = c9hex ∧
    detect_header c9hex = some 0 ∧
    detectFooter c9hex = some (70, "GTX 10XX") ∧
    detect_offsets c9hex false = .ok ⟨some 0, some 70⟩ ∧
    run_sanity_tests c9hex ⟨some 0, some 70⟩ false = .ok () ∧
    get_spliced_rom c9hex ⟨some 0, some 70⟩ false = .ok (c9bytes.take 35) ∧
    runPipeline c9bytes false false = .ok (c9bytes.take 35) := by
  refine ⟨by decide, by decide, by decide, by decide, by decide, by decide, by decide⟩
